import Mathlib

/-!
Shallow embedding of the `@proc7ts/context-values` entry-resolution engine.

Conventions of the embedding:
* TypeScript `null`/`undefined` are both modelled as `Option.none`; a present
  value `v` is `some v`.  An asset evaluator is pure in the embedding, so an
  evaluator is represented by its evaluation result `Option α`; invocation
  counts are threaded explicitly where memoization matters.
* Reference identity of provider functions is modelled by natural-number ids.
* Thrown errors (`CxReferenceError`, `ContextKeyError`) are modelled with
  `Except`-style result types.
-/

namespace ContextValues

/-- Model of a termination reason / error cause (an arbitrary JS value). -/
abbrev Reason : Type := Nat

/-- Model of `CxReferenceError` (unnamed/part_001): carries the offending
entry's identity and an optional original reason. -/
structure CxReferenceError where
  entry : Nat
  reason : Option Reason
deriving DecidableEq, Repr

/-! ## `cxSingle` (unnamed/part_000, lines 17–46)

`cxSingle` collects every asset evaluator in registration order via
`target.eachAsset`, then walks the collected array from the last index down
to `0`, evaluating each asset and stopping at the first non-null result;
the final `value` is returned (it stays null-equivalent when every asset
evaluated to null, and `undefined` when there are no assets). -/

/-- The loop of `cxSingle`'s `get` (unnamed/part_000 lines 33–42) on the list
of asset evaluation results in registration order: scan from the end,
return the first non-null result; otherwise the last evaluated
null-equivalent result (`none`). -/
def cxSingleGet {α : Type} : List (Option α) → Option α
  | [] => none
  | a :: rest =>
    match cxSingleGet rest with
    | some v => some v
    | none => a

/-! ## `cxConstAsset` (src/core/asset.ts, lines 189–208)

A constant asset with a non-null value places exactly that value with the
collector; a `null`/`undefined` constant asset uses `CxAsset$provideNone`,
which never invokes the collector. -/

/-- The list of asset values a `cxConstAsset` placement hands to the
collector: `[v]` for a non-null constant, `[]` for `CxAsset$provideNone`. -/
def cxConstAssetPlace {α : Type} : Option α → List α
  | some v => [v]
  | none => []

/-- Asset evaluators collected from a registry of constant assets
(`target.eachAsset` over every placement, registration order preserved). -/
def collectEvaluators {α : Type} (regs : List (Option α)) : List (Option α) :=
  (regs.flatMap fun r => (cxConstAssetPlace r).map some)

/-- Single-value resolution of a registry of constant assets: `cxSingle`'s
`get` over the collected evaluators. -/
def cxSingleResolve {α : Type} (regs : List (Option α)) : Option α :=
  cxSingleGet (collectEvaluators regs)

/-! ## The context value accessor (src/core/values.ts, lines 44–70)

Only the `CxValues.Accessor.get` interface and its documentation are part of
the sources; the class implementing it is absent.  The resolution order is
therefore modelled from the spec. -/

/-- Outcome of `context.get(entry, request?)`: a value, the null-equivalent
result of the nullable-returning overload, or a thrown `CxReferenceError`. -/
inductive CxResult (α : Type) where
  | val : α → CxResult α
  | nullVal : CxResult α
  | err : CxReferenceError → CxResult α
deriving DecidableEq, Repr

/-- Modelled from the spec: the accessor implementation behind
`CxValues.Accessor.get` is not among the sources (only its interface in
src/core/values.ts is), so §4.7's strict resolution order is taken
literally: (1) the Definition's `get()` when non-null; (2) the caller
fallback `request.or` when given and non-null (the base accessor treats an
absent fallback and a null one identically, so both are `none` here);
(3) the Definition's `getDefault()` when non-null; (4) otherwise a
`CxReferenceError` unless the nullable-returning overload was used, which
yields the null-equivalent instead. -/
def accessorGet {α : Type} (entry : Nat) (defGet : Option α) (orVal : Option α)
    (defDefault : Option α) (nullable : Bool) : CxResult α :=
  match defGet with
  | some v => .val v
  | none =>
    match orVal with
    | some v => .val v
    | none =>
      match defDefault with
      | some v => .val v
      | none => if nullable then .nullVal else .err ⟨entry, none⟩

/-! ## `SingleContextUpKey.grow` (src/updatable/single-context-up-key.ts, 65–99)

`grow` maps the seed's current source list: when sources are present the
last one wins; otherwise a backup is chosen — `slot.or` when a fallback was
given in the request (even when that fallback is literally `null` or
`undefined`), the `byDefault` result otherwise — and when the backup is
null-equivalent the grown value keeper throws a `ContextKeyError` on read. -/

/-- Outcome of reading the value grown by `SingleContextUpKey.grow`. -/
inductive UpResult (α : Type) where
  | val : α → UpResult α
  | keyError : UpResult α
deriving DecidableEq, Repr

/-- `SingleContextUpKey.grow` on the current seed sources, as observed by
reading the resulting keeper once.  `hasFallback` models `slot.hasFallback`
(whether the request carried an `or` property at all) and `orVal` models
`slot.or` (`none` for a `null`/`undefined` fallback). -/
def singleUpGrow {α : Type} (sources : List α) (hasFallback : Bool)
    (orVal : Option α) (byDefault : Option α) : UpResult α :=
  match sources.getLast? with
  | some v => .val v
  | none =>
    let backup : Option α := if hasFallback then orVal else byDefault
    match backup with
    | some b => .val b
    | none => .keyError

/-! ## `IterativeContextSeeder` (src/iterative-context-key.ts, lines 15–46)

`provide` pushes the provider onto the `_providers` array and returns a
closure that looks the provider up with `indexOf` and, when found, removes
one occurrence with `splice`.  Provider reference identity is modelled by
natural-number ids. -/

/-- The removal closure returned by `IterativeContextSeeder.provide`:
`indexOf` the captured provider, `splice` it out when found, otherwise do
nothing. -/
def seederRemove (ps : List Nat) (p : Nat) : List Nat :=
  match ps.findIdx? (· = p) with
  | some i => ps.eraseIdx i
  | none => ps

/-- `IterativeContextSeeder.provide` appends the provider to the list. -/
def seederProvide (ps : List Nat) (p : Nat) : List Nat := ps ++ [p]

/-! ## Memoized evaluation cells

Three places share the same "evaluate once, cache forever" cell shape:
* the `SourceEntry` tuples of `iterativeSeed` (src/iterative-context-key.ts,
  lines 96–113): `entry = [provider]`, a second element is pushed on first
  evaluation and returned on every later one (a cached `null` source is
  cached too, since `entry.length > 1` holds once pushed);
* `CxAsset.Provided.get` (src/core/asset.ts, lines 146–156; the interface
  contract — the implementing class is not among the sources);
* `lazyValue` of `@proc7ts/primitives` (external collaborator), wrapping
  `cxSingle`'s overall `get`.
Evaluation is pure in the embedding, so the cell takes the evaluation result
and a cache, and returns the observed result, the updated cache, and how
many times the underlying closure ran during the call. -/
def memoGet {α : Type} (value : α) (cache : Option α) : α × Option α × Nat :=
  match cache with
  | some v => (v, some v, 0)
  | none => (value, some value, 1)

/-- One full iteration of the seed built by `iterativeSeed`
(src/iterative-context-key.ts, lines 96–113): map each `SourceEntry` through
its cache cell, then `filter(isPresent)`.  Returns the produced sources, the
updated entries, and the total number of provider invocations. -/
def iterativeSeedRun {σ : Type} :
    List (Option σ × Option (Option σ)) → List σ × List (Option σ × Option (Option σ)) × Nat
  | [] => ([], [], 0)
  | (prov, cache) :: rest =>
    let hd := memoGet prov cache
    let tl := iterativeSeedRun rest
    (match hd.1 with
     | some v => v :: tl.1
     | none => tl.1,
     (prov, hd.2.1) :: tl.2.1,
     hd.2.2 + tl.2.2)

/-- `n` successive calls to a `lazyValue`-wrapped getter (such as
`cxSingle`'s `get`): the list of observed results, the final cache, and the
total number of computations of the wrapped closure. -/
def lazyRepeat {α : Type} (value : α) : Nat → List α × Option α × Nat
  | 0 => ([], none, 0)
  | n + 1 =>
    let acc := lazyRepeat value n
    let step := memoGet value acc.2.1
    (acc.1 ++ [step.1], step.2.1, acc.2.2 + step.2.2)

/-! ## `cxDynamic` (src/entries/dynamic.entry.ts, lines 88–176)

The definer keeps five mutable closure cells per definition target:
`getDefaultState`, `getState`, `getDefaultValue`, `getValue` and
`getAssign`.  `getAssign` is `target.lazy`-memoized; its first invocation
starts `trackAssetList`, whose callback rebuilds the state from the full
current asset list on every change.  `target.supply.whenOff` replaces every
cell with `cxUnavailable(target.entry, undefined, reason)`.

External pieces modelled from the spec:
* `cxUnavailable` (core module, absent from the sources): per §4.4/§7 it
  produces an accessor that unconditionally throws a `CxReferenceError`
  carrying the entry and the given reason;
* `cxRecent$access` (recent.impl.ts, absent): the default `access` adapter,
  which passes the internal state through as the entry value;
* `target.lazy` (core, absent): per §4.4 a per-scope memoizing wrapper;
* `CxRequestMethod` (core, absent): per §4.4 the `Assets`/`Defaults`
  signal; the source's `method > 0` test holds exactly for `Assets`;
* `trackAssetList` delivery (registry, absent): per §4.5 it synchronously
  delivers the currently registered assets on subscription and the full
  list on every later change, and stops once the scope terminates (§4.3:
  "no recomputation happens once the scope's lifecycle token has
  terminated"). -/

/-- Modelled from the spec: `CxRequestMethod`'s `Assets`/`Defaults` signal
(the enum lives in the core module absent from the sources). -/
inductive CxMethod where
  | assets
  | defaults
deriving DecidableEq, Repr

/-- Failure of a `cxDynamic` internal accessor. -/
inductive DynFailure where
  /-- A `cxUnavailable` cell was invoked: throws `CxReferenceError`. -/
  | unavailable (e : CxReferenceError)
  /-- The uninitialized `getState` variable was invoked before asset-list
  tracking started (a type error in the source; unreachable through the
  public `assign`/`assignDefault` methods). -/
  | notInitialized
deriving DecidableEq, Repr

/-- Modelled from the spec: `cxUnavailable(entry, undefined, reason)`
produces an accessor that unconditionally throws a `CxReferenceError`
carrying the entry and the reason. -/
def cxUnavailable (entry : Nat) (reason : Option Reason) : DynFailure :=
  .unavailable ⟨entry, reason⟩

/-- Source of `cxDynamic`'s initial `getDefaultState` cell
(src/entries/dynamic.entry.ts, lines 102–106). -/
inductive DefaultSrc (σ : Type) where
  /-- `target.lazy(byDefault)` — `byDefault` is pure in the embedding, so it
  is represented by its result. -/
  | lazyOf (d : σ)
  /-- `cxUnavailable(target.entry)` — `byDefault` omitted but `create`
  given. -/
  | unavailableDefault
  /-- `cxDynamic$byDefault` — both omitted; returns the empty array (the
  value is `[]` at `σ = List τ`). -/
  | emptyArray (d : σ)

/-- The configuration `cxDynamic` normalizes its options into
(src/entries/dynamic.entry.ts, lines 99–111). -/
structure DynCfg (τ σ : Type) where
  entry : Nat
  create : List τ → σ
  defaultSrc : DefaultSrc σ
  hasDefault : Bool

/-- `cxDynamic({create, byDefault})`. -/
def cxDynamicFull {τ σ : Type} (entry : Nat) (create : List τ → σ) (byDefault : σ) :
    DynCfg τ σ :=
  ⟨entry, create, .lazyOf byDefault, true⟩

/-- `cxDynamic({create})`: no default (`hasDefault` is false,
`getDefaultState` is `cxUnavailable(target.entry)`). -/
def cxDynamicCreateOnly {τ σ : Type} (entry : Nat) (create : List τ → σ) : DynCfg τ σ :=
  ⟨entry, create, .unavailableDefault, false⟩

/-- `cxDynamic()`: `create` defaults to `cxDynamic$create` (the asset array
itself is the state) and `getDefaultState` to `cxDynamic$byDefault`
(the empty array). -/
def cxDynamicPlain (τ : Type) (entry : Nat) : DynCfg τ (List τ) :=
  ⟨entry, fun xs => xs, .emptyArray [], true⟩

/-- `cxDynamic({byDefault})`: `create` defaults to `cxDynamic$create`. -/
def cxDynamicByDefaultOnly {τ : Type} (entry : Nat) (byDefault : List τ) :
    DynCfg τ (List τ) :=
  ⟨entry, fun xs => xs, .lazyOf byDefault, true⟩

/-- The mutable cells of one `cxDynamic` definition.  `torn = some r` models
every accessor cell having been replaced by
`cxUnavailable(target.entry, undefined, r)` (lines 148–154);
`assetsState = some s` models `getState = () => state` after a non-empty
asset-list callback, `none` models `getState = getDefaultState`;
`method = none` models the not-yet-assigned `method` variable;
`defaultMemo`/`defaultCount` model the `target.lazy(byDefault)` cache and
how many times `byDefault` ran; `createLog` records every argument `create`
was invoked with, in order. -/
structure DynState (τ σ : Type) where
  torn : Option Reason
  started : Bool
  assetsState : Option σ
  method : Option CxMethod
  defaultMemo : Option σ
  defaultCount : Nat
  createLog : List (List τ)

/-- The state of a freshly created `cxDynamic` definition. -/
def dynInit {τ σ : Type} : DynState τ σ :=
  ⟨none, false, none, none, none, 0, []⟩

/-- `target.supply.whenOff` handler (lines 148–154): every accessor cell is
replaced with `cxUnavailable(target.entry, undefined, reason)`. -/
def dynTeardown {τ σ : Type} (st : DynState τ σ) (r : Reason) : DynState τ σ :=
  { st with torn := some r }

/-- The `getDefaultState` cell: after teardown it is `cxUnavailable` with
the termination reason; otherwise `target.lazy(byDefault)`,
`cxUnavailable(target.entry)` or `cxDynamic$byDefault` per the
configuration. -/
def dynGetDefaultState {τ σ : Type} (cfg : DynCfg τ σ) (st : DynState τ σ) :
    Except DynFailure σ × DynState τ σ :=
  match st.torn with
  | some r => (.error (cxUnavailable cfg.entry (some r)), st)
  | none =>
    match cfg.defaultSrc with
    | .lazyOf d =>
      match st.defaultMemo with
      | some v => (.ok v, st)
      | none =>
        (.ok d, { st with defaultMemo := some d, defaultCount := st.defaultCount + 1 })
    | .unavailableDefault => (.error (cxUnavailable cfg.entry none), st)
    | .emptyArray d => (.ok d, st)

/-- The `getState` cell: after teardown `cxUnavailable` with the reason;
`() => state` after a non-empty asset-list callback; `getDefaultState`
after an empty one; invoking the uninitialized variable otherwise. -/
def dynGetState {τ σ : Type} (cfg : DynCfg τ σ) (st : DynState τ σ) :
    Except DynFailure σ × DynState τ σ :=
  match st.torn with
  | some r => (.error (cxUnavailable cfg.entry (some r)), st)
  | none =>
    match st.assetsState with
    | some s => (.ok s, st)
    | none =>
      if st.started then dynGetDefaultState cfg st
      else (.error .notInitialized, st)

/-- The `getValue` cell: `access(() => getState(), target)` with the
default pass-through `cxRecent$access` adapter (modelled from the spec, see
above), so the entry value is the internal state. -/
def dynGetValue {τ σ : Type} (cfg : DynCfg τ σ) (st : DynState τ σ) :
    Except DynFailure σ × DynState τ σ :=
  dynGetState cfg st

/-- The `getDefaultValue` cell: `access(() => getDefaultState(), target)`
with the default pass-through adapter. -/
def dynGetDefaultValue {τ σ : Type} (cfg : DynCfg τ σ) (st : DynState τ σ) :
    Except DynFailure σ × DynState τ σ :=
  dynGetDefaultState cfg st

/-- The `trackAssetList` callback (lines 117–137): flatten every provided
asset's placed values into the full current asset array; when non-empty,
invoke `create` on it and let `getState` return that state with
`method = Assets`; when empty, switch `getState` to `getDefaultState` with
`method = Defaults`.  Per §4.3 the tracking subscription no longer fires
once the scope has terminated. -/
def dynOnList {τ σ : Type} (cfg : DynCfg τ σ) (st : DynState τ σ)
    (list : List (List τ)) : DynState τ σ :=
  match st.torn with
  | some _ => st
  | none =>
    if list.flatten.isEmpty then
      { st with method := some .defaults, assetsState := none }
    else
      { st with
          method := some .assets
          assetsState := some (cfg.create list.flatten)
          createLog := st.createLog ++ [list.flatten] }

/-- First invocation of the `target.lazy`-memoized `getAssign` closure:
starts `trackAssetList`, which synchronously delivers the currently
registered assets (`curList`). -/
def dynStart {τ σ : Type} (cfg : DynCfg τ σ) (st : DynState τ σ)
    (curList : List (List τ)) : DynState τ σ :=
  if st.started then st
  else
    match st.torn with
    | some _ => st
    | none => dynOnList cfg { st with started := true } curList

/-- `assign`/`assignDefault` (lines 139–145, 156–163): after teardown
`getAssign` is `cxUnavailable`; otherwise its memoized closure assigns
`getDefaultValue()` for the default request, `getValue()` tagged with
`method` for the value request — and, when the entry has no default, only
when `method > 0` (`Assets`).  The result records what the assigner
received: `none` when it was not invoked. -/
def dynAssign {τ σ : Type} (cfg : DynCfg τ σ) (st : DynState τ σ)
    (curList : List (List τ)) (isDefault : Bool) :
    Except DynFailure (Option (σ × Option CxMethod)) × DynState τ σ :=
  match st.torn with
  | some r => (.error (cxUnavailable cfg.entry (some r)), st)
  | none =>
    let st1 := dynStart cfg st curList
    if cfg.hasDefault then
      if isDefault then
        match dynGetDefaultValue cfg st1 with
        | (.ok v, st2) => (.ok (some (v, none)), st2)
        | (.error e, st2) => (.error e, st2)
      else
        match dynGetValue cfg st1 with
        | (.ok v, st2) => (.ok (some (v, st1.method)), st2)
        | (.error e, st2) => (.error e, st2)
    else
      if isDefault then (.ok none, st1)
      else if st1.method = some CxMethod.assets then
        match dynGetValue cfg st1 with
        | (.ok v, st2) => (.ok (some (v, st1.method)), st2)
        | (.error e, st2) => (.error e, st2)
      else (.ok none, st1)

/-- Events hitting a live `cxDynamic` definition while tracking is active:
an asset-list change, or an internal value / default access. -/
inductive DynEvent (τ : Type) where
  | change (list : List (List τ))
  | accessValue
  | accessDefault

/-- The asset list of a change event, when the event is one. -/
def DynEvent.changeList {τ : Type} : DynEvent τ → Option (List (List τ))
  | .change l => some l
  | .accessValue => none
  | .accessDefault => none

/-- One event step of a `cxDynamic` definition. -/
def dynStep {τ σ : Type} (cfg : DynCfg τ σ) (st : DynState τ σ) :
    DynEvent τ → DynState τ σ
  | .change l => dynOnList cfg st l
  | .accessValue => (dynGetValue cfg st).2
  | .accessDefault => (dynGetDefaultValue cfg st).2

/-- A run of event steps. -/
def dynRun {τ σ : Type} (cfg : DynCfg τ σ) (st : DynState τ σ) :
    List (DynEvent τ) → DynState τ σ
  | [] => st
  | e :: rest => dynRun cfg (dynStep cfg st e) rest

/-- The `create` invocations a sequence of delivered asset lists causes:
one per list whose flattened asset array is non-empty, receiving exactly
that array. -/
def expectedLog {τ : Type} (lists : List (List (List τ))) : List (List τ) :=
  (lists.map List.flatten).filter (fun l => !l.isEmpty)

/-- The memoization invariant of the `target.lazy(byDefault)` cell:
`byDefault` has not run before its cache was filled, and has run at most
once. -/
def DynInv {τ σ : Type} (st : DynState τ σ) : Prop :=
  (st.defaultMemo = none → st.defaultCount = 0) ∧ st.defaultCount ≤ 1

end ContextValues

namespace ContextValues

/-! ## Helper lemmas -/

theorem cxSingleGet_concat_some {α : Type} (m : List (Option α)) (v : α) :
    cxSingleGet (m ++ [some v]) = some v := by
  induction m with
  | nil => rfl
  | cons a rest ih => simp [cxSingleGet, ih]

theorem cxSingleGet_concat_none {α : Type} (m : List (Option α)) :
    cxSingleGet (m ++ [none]) = cxSingleGet m := by
  induction m with
  | nil => rfl
  | cons a rest ih => simp [cxSingleGet, ih]

theorem cxSingleGet_all_none {α : Type} (l : List (Option α)) (h : ∀ x ∈ l, x = none) :
    cxSingleGet l = none := by
  induction l with
  | nil => rfl
  | cons a rest ih =>
    have ha : a = none := h a (List.mem_cons_self a rest)
    have hr := ih fun x hx => h x (List.mem_cons_of_mem a hx)
    simp [cxSingleGet, ha, hr]

theorem placements_eq_filterMap {τ : Type} (regs : List (Option τ)) :
    (regs.map cxConstAssetPlace).flatten = regs.filterMap id := by
  induction regs with
  | nil => rfl
  | cons r rest ih => cases r <;> simp [cxConstAssetPlace, ih]

theorem collectEvaluators_none_skipped {α : Type} (r1 r2 : List (Option α)) :
    collectEvaluators (r1 ++ none :: r2) = collectEvaluators (r1 ++ r2) := by
  simp [collectEvaluators, cxConstAssetPlace]

theorem seeder_findIdx_not_mem {p : Nat} {l : List Nat} (h : p ∉ l) :
    l.findIdx? (· = p) = none := by
  induction l with
  | nil => rfl
  | cons x xs ih =>
    rw [List.findIdx?_cons]
    simp only [List.mem_cons, not_or] at h
    have hx : ¬x = p := fun hc => h.1 hc.symm
    simp [hx, ih h.2]

theorem seeder_findIdx_append {p : Nat} (xs ys : List Nat) (h : p ∉ xs) :
    (xs ++ p :: ys).findIdx? (· = p) = some xs.length := by
  induction xs with
  | nil => simp [List.findIdx?_cons]
  | cons x t ih =>
    simp only [List.mem_cons, not_or] at h
    have hx : ¬x = p := fun hc => h.1 hc.symm
    rw [List.cons_append, List.findIdx?_cons]
    simp [hx, ih h.2]

theorem seeder_eraseIdx_append (p : Nat) (xs ys : List Nat) :
    (xs ++ p :: ys).eraseIdx xs.length = xs ++ ys := by
  induction xs with
  | nil => rfl
  | cons x t ih => simp [List.eraseIdx, ih]

theorem seederRemove_not_mem {p : Nat} {l : List Nat} (h : p ∉ l) :
    seederRemove l p = l := by
  unfold seederRemove
  rw [seeder_findIdx_not_mem h]

theorem seederRemove_once {p : Nat} (xs ys : List Nat) (h : p ∉ xs) :
    seederRemove (xs ++ p :: ys) p = xs ++ ys := by
  unfold seederRemove
  rw [seeder_findIdx_append xs ys h]
  exact seeder_eraseIdx_append p xs ys

theorem dynGetDefaultState_state {τ σ : Type} (cfg : DynCfg τ σ) (st : DynState τ σ) :
    (dynGetDefaultState cfg st).2 = st
    ∨ (st.defaultMemo = none ∧ ∃ d,
        (dynGetDefaultState cfg st).2
          = { st with defaultMemo := some d, defaultCount := st.defaultCount + 1 }) := by
  unfold dynGetDefaultState
  cases h1 : st.torn with
  | some r => exact Or.inl rfl
  | none =>
    cases h2 : cfg.defaultSrc with
    | lazyOf d =>
      cases h3 : st.defaultMemo with
      | some v => exact Or.inl rfl
      | none => exact Or.inr ⟨rfl, d, rfl⟩
    | unavailableDefault => exact Or.inl rfl
    | emptyArray d => exact Or.inl rfl

theorem dynGetState_state {τ σ : Type} (cfg : DynCfg τ σ) (st : DynState τ σ) :
    (dynGetState cfg st).2 = st ∨ (dynGetState cfg st).2 = (dynGetDefaultState cfg st).2 := by
  unfold dynGetState
  cases h1 : st.torn with
  | some r => exact Or.inl rfl
  | none =>
    cases h2 : st.assetsState with
    | some s => exact Or.inl rfl
    | none =>
      cases h3 : st.started with
      | true => exact Or.inr rfl
      | false => exact Or.inl rfl

theorem dynGetDefaultState_createLog {τ σ : Type} (cfg : DynCfg τ σ) (st : DynState τ σ) :
    (dynGetDefaultState cfg st).2.createLog = st.createLog := by
  rcases dynGetDefaultState_state cfg st with he | ⟨_, d, he⟩ <;> rw [he]

theorem dynGetDefaultState_torn {τ σ : Type} (cfg : DynCfg τ σ) (st : DynState τ σ) :
    (dynGetDefaultState cfg st).2.torn = st.torn := by
  rcases dynGetDefaultState_state cfg st with he | ⟨_, d, he⟩ <;> rw [he]

theorem dynGetState_createLog {τ σ : Type} (cfg : DynCfg τ σ) (st : DynState τ σ) :
    (dynGetState cfg st).2.createLog = st.createLog := by
  rcases dynGetState_state cfg st with he | he <;> rw [he]
  exact dynGetDefaultState_createLog cfg st

theorem dynGetState_torn {τ σ : Type} (cfg : DynCfg τ σ) (st : DynState τ σ) :
    (dynGetState cfg st).2.torn = st.torn := by
  rcases dynGetState_state cfg st with he | he <;> rw [he]
  exact dynGetDefaultState_torn cfg st

theorem dynOnList_torn {τ σ : Type} (cfg : DynCfg τ σ) (st : DynState τ σ)
    (l : List (List τ)) : (dynOnList cfg st l).torn = st.torn := by
  unfold dynOnList
  cases h : st.torn with
  | some r => exact h
  | none => by_cases he : l.flatten.isEmpty <;> simp [he, h]

theorem dynOnList_defaultMemo {τ σ : Type} (cfg : DynCfg τ σ) (st : DynState τ σ)
    (l : List (List τ)) :
    (dynOnList cfg st l).defaultMemo = st.defaultMemo
      ∧ (dynOnList cfg st l).defaultCount = st.defaultCount := by
  unfold dynOnList
  cases h : st.torn with
  | some r => exact ⟨rfl, rfl⟩
  | none => by_cases he : l.flatten.isEmpty <;> simp [he]

theorem dynOnList_createLog {τ σ : Type} (cfg : DynCfg τ σ) (st : DynState τ σ)
    (l : List (List τ)) (h : st.torn = none) :
    (dynOnList cfg st l).createLog = st.createLog ++ expectedLog [l] := by
  simp only [dynOnList, expectedLog, h]
  by_cases he : l.flatten.isEmpty <;> simp [he, List.filter_cons]

theorem expectedLog_nil {τ : Type} : expectedLog ([] : List (List (List τ))) = [] := rfl

theorem expectedLog_cons {τ : Type} (l : List (List τ)) (ls : List (List (List τ))) :
    expectedLog (l :: ls) = expectedLog [l] ++ expectedLog ls := by
  unfold expectedLog
  by_cases he : l.flatten.isEmpty <;> simp [he, List.filter_cons]

theorem dynStep_torn {τ σ : Type} (cfg : DynCfg τ σ) (st : DynState τ σ) (e : DynEvent τ) :
    (dynStep cfg st e).torn = st.torn := by
  cases e with
  | change l => exact dynOnList_torn cfg st l
  | accessValue => exact dynGetState_torn cfg st
  | accessDefault => exact dynGetDefaultState_torn cfg st

theorem dynStep_createLog {τ σ : Type} (cfg : DynCfg τ σ) (st : DynState τ σ)
    (e : DynEvent τ) (h : st.torn = none) :
    (dynStep cfg st e).createLog
      = st.createLog ++ expectedLog (e.changeList.toList) := by
  cases e with
  | change l => simpa [DynEvent.changeList, dynStep] using dynOnList_createLog cfg st l h
  | accessValue =>
    simp [dynStep, dynGetValue, DynEvent.changeList, expectedLog_nil, dynGetState_createLog]
  | accessDefault =>
    simp [dynStep, dynGetDefaultValue, DynEvent.changeList, expectedLog_nil,
      dynGetDefaultState_createLog]

theorem dynGetDefaultState_inv {τ σ : Type} (cfg : DynCfg τ σ) (st : DynState τ σ)
    (h : DynInv st) : DynInv (dynGetDefaultState cfg st).2 := by
  rcases dynGetDefaultState_state cfg st with he | ⟨hm, d, he⟩
  · rw [he]; exact h
  · rw [he]
    have h0 := h.1 hm
    simp [DynInv, h0]

theorem dynStep_inv {τ σ : Type} (cfg : DynCfg τ σ) (st : DynState τ σ) (e : DynEvent τ)
    (h : DynInv st) : DynInv (dynStep cfg st e) := by
  cases e with
  | change l =>
    simp only [dynStep]
    have hd := dynOnList_defaultMemo cfg st l
    refine ⟨fun hc => ?_, ?_⟩
    · rw [hd.1] at hc
      rw [hd.2]
      exact h.1 hc
    · rw [hd.2]
      exact h.2
  | accessValue =>
    simp only [dynStep, dynGetValue]
    rcases dynGetState_state cfg st with he | he
    · rw [he]; exact h
    · rw [he]; exact dynGetDefaultState_inv cfg st h
  | accessDefault =>
    simp only [dynStep, dynGetDefaultValue]
    exact dynGetDefaultState_inv cfg st h

theorem dynRun_createLog {τ σ : Type} (cfg : DynCfg τ σ) (events : List (DynEvent τ)) :
    ∀ st : DynState τ σ, st.torn = none →
      (dynRun cfg st events).createLog
        = st.createLog ++ expectedLog (events.filterMap DynEvent.changeList) := by
  induction events with
  | nil => intro st _; simp [dynRun, expectedLog]
  | cons e rest ih =>
    intro st h
    have ht : (dynStep cfg st e).torn = none := by rw [dynStep_torn]; exact h
    rw [dynRun, ih _ ht, dynStep_createLog cfg st e h]
    cases e with
    | change l =>
      have hf : (DynEvent.change l :: rest).filterMap DynEvent.changeList
          = l :: rest.filterMap DynEvent.changeList := by
        simp [DynEvent.changeList]
      rw [hf, expectedLog_cons]
      simp [DynEvent.changeList, List.append_assoc]
    | accessValue =>
      have hf : (DynEvent.accessValue :: rest).filterMap DynEvent.changeList
          = rest.filterMap DynEvent.changeList := by
        simp [DynEvent.changeList]
      rw [hf]
      simp [DynEvent.changeList, expectedLog_nil]
    | accessDefault =>
      have hf : (DynEvent.accessDefault :: rest).filterMap DynEvent.changeList
          = rest.filterMap DynEvent.changeList := by
        simp [DynEvent.changeList]
      rw [hf]
      simp [DynEvent.changeList, expectedLog_nil]

theorem dynRun_inv {τ σ : Type} (cfg : DynCfg τ σ) (events : List (DynEvent τ)) :
    ∀ st : DynState τ σ, DynInv st → DynInv (dynRun cfg st events) := by
  induction events with
  | nil => intro st h; exact h
  | cons e rest ih => intro st h; exact ih _ (dynStep_inv cfg st e h)

theorem iterativeSeedRun_fresh {σ : Type} (provs : List (Option σ)) :
    iterativeSeedRun (provs.map fun q => (q, none))
      = (provs.filterMap id, provs.map fun q => (q, some q), provs.length) := by
  induction provs with
  | nil => rfl
  | cons p rest ih =>
    cases p <;>
      simp [iterativeSeedRun, memoGet, ih, List.filterMap_cons, Nat.add_comm]

theorem iterativeSeedRun_cached {σ : Type} (provs : List (Option σ)) :
    iterativeSeedRun (provs.map fun q => (q, some q))
      = (provs.filterMap id, provs.map fun q => (q, some q), 0) := by
  induction provs with
  | nil => rfl
  | cons p rest ih =>
    cases p <;> simp [iterativeSeedRun, memoGet, ih, List.filterMap_cons]

theorem lazyRepeat_spec {α : Type} (value : α) (n : Nat) :
    (lazyRepeat value n).1 = List.replicate n value
    ∧ (lazyRepeat value n).2.1 = (if n = 0 then none else some value)
    ∧ (lazyRepeat value n).2.2 = (if n = 0 then 0 else 1) := by
  induction n with
  | zero => simp [lazyRepeat]
  | succ k ih =>
    rcases ih with ⟨h1, h2, h3⟩
    by_cases hk : k = 0
    · subst hk
      simp [lazyRepeat, memoGet]
    · simp [lazyRepeat, h1, h2, h3, hk, memoGet, List.replicate_succ']

theorem dynAssign_flatten_congr {τ σ : Type} (cfg : DynCfg τ σ) (st : DynState τ σ)
    (l1 l2 : List (List τ)) (d : Bool) (h : l1.flatten = l2.flatten) :
    dynAssign cfg st l1 d = dynAssign cfg st l2 d := by
  unfold dynAssign dynStart dynOnList
  rw [h]

/-! ## The claims -/

/-- C1: a `cxSingle` entry's `get()` returns the value of the last-registered
asset whose evaluator returns a non-null result (appending a non-null asset
makes it the result; appending a null-evaluating one changes nothing); for
constant assets `v1, v2, v3` registered in that order the entry resolves to
`v3`, after revoking `v3`'s registration to `v2`, and after revoking that to
`v1`; when every asset evaluates to null, `get()` returns the null-equivalent
and resolution falls through to the optional default. -/
theorem cxSingle_last_wins {α : Type} (l m : List (Option α)) (v v1 v2 v3 d : α)
    (entry : Nat) (h : ∀ x ∈ l, x = none) :
    cxSingleGet (m ++ [some v]) = some v
    ∧ cxSingleGet (m ++ [none]) = cxSingleGet m
    ∧ cxSingleResolve [some v1, some v2, some v3] = some v3
    ∧ cxSingleResolve [some v1, some v2] = some v2
    ∧ cxSingleResolve [some v1] = some v1
    ∧ cxSingleGet l = none
    ∧ accessorGet entry (cxSingleGet l) none (some d) false = CxResult.val d := by
  refine ⟨cxSingleGet_concat_some m v, cxSingleGet_concat_none m, rfl, rfl, rfl, ?_, ?_⟩
  · exact cxSingleGet_all_none l h
  · rw [cxSingleGet_all_none l h]
    rfl

/-- Witness for C1 at concrete inputs. -/
theorem cxSingle_last_wins_witness :
    (∀ x ∈ ([none, none] : List (Option Nat)), x = none)
    ∧ (cxSingleGet (([some 5] : List (Option Nat)) ++ [some 2]) = some 2
       ∧ cxSingleGet (([some 5] : List (Option Nat)) ++ [none])
           = cxSingleGet ([some 5] : List (Option Nat))
       ∧ cxSingleResolve ([some 1, some 2, some 3] : List (Option Nat)) = some 3
       ∧ cxSingleResolve ([some 1, some 2] : List (Option Nat)) = some 2
       ∧ cxSingleResolve ([some 1] : List (Option Nat)) = some 1
       ∧ cxSingleGet ([none, none] : List (Option Nat)) = none
       ∧ accessorGet 0 (cxSingleGet ([none, none] : List (Option Nat))) none (some 7) false
           = CxResult.val 7) :=
  ⟨by decide, cxSingle_last_wins [none, none] [some 5] 2 1 2 3 7 0 (by decide)⟩

/-- C2: the accessor resolves in this strict order: the Definition's `get()`
when non-null; then a given, non-null caller fallback; then the Definition's
`getDefault()` when non-null; otherwise a `CxReferenceError` — unless the
nullable-returning overload is used, which yields the null-equivalent. -/
theorem accessor_precedence {α : Type} (entry : Nat) (v w d : α)
    (orv dfl : Option α) (nullable : Bool) :
    accessorGet entry (some v) orv dfl nullable = CxResult.val v
    ∧ accessorGet entry none (some w) dfl nullable = CxResult.val w
    ∧ accessorGet entry none none (some d) nullable = CxResult.val d
    ∧ @accessorGet α entry none none none false = CxResult.err ⟨entry, none⟩
    ∧ @accessorGet α entry none none none true = CxResult.nullVal :=
  ⟨rfl, rfl, rfl, rfl, rfl⟩

/-- C3: once a `cxDynamic` definition's scope supply is cut off with a
reason, every internal accessor (`getState`, `getValue`, `getDefaultValue`,
and `getAssign` through `assign`) unconditionally fails with a
`CxReferenceError` carrying that reason, for every prior state — in
particular it never returns previously cached state. -/
theorem cxDynamic_teardown_fails {τ σ : Type} (cfg : DynCfg τ σ) (st : DynState τ σ)
    (r : Reason) (curList : List (List τ)) (isDefault : Bool) :
    (dynGetState cfg (dynTeardown st r)).1 = .error (cxUnavailable cfg.entry (some r))
    ∧ (dynGetValue cfg (dynTeardown st r)).1 = .error (cxUnavailable cfg.entry (some r))
    ∧ (dynGetDefaultState cfg (dynTeardown st r)).1
        = .error (cxUnavailable cfg.entry (some r))
    ∧ (dynGetDefaultValue cfg (dynTeardown st r)).1
        = .error (cxUnavailable cfg.entry (some r))
    ∧ (dynAssign cfg (dynTeardown st r) curList isDefault).1
        = .error (cxUnavailable cfg.entry (some r))
    ∧ (∀ s, (dynGetValue cfg (dynTeardown st r)).1 ≠ Except.ok s)
    ∧ (∀ o, (dynAssign cfg (dynTeardown st r) curList isDefault).1 ≠ Except.ok o) := by
  refine ⟨rfl, rfl, rfl, rfl, rfl, ?_, ?_⟩
  · intro s hc
    exact Except.noConfusion hc
  · intro o hc
    exact Except.noConfusion hc

/-- C4: while tracking is active, `create` is re-invoked on every asset-list
change delivered to a `cxDynamic` definition — receiving the full current
(flattened) asset list, and only when that list is non-empty — and
`byDefault` runs at most once per scope, however many changes and accesses
occur. -/
theorem cxDynamic_create_per_change {τ σ : Type} (cfg : DynCfg τ σ)
    (initList : List (List τ)) (events : List (DynEvent τ)) :
    (dynRun cfg (dynStart cfg dynInit initList) events).createLog
      = expectedLog (initList :: events.filterMap DynEvent.changeList)
    ∧ (dynRun cfg (dynStart cfg dynInit initList) events).defaultCount ≤ 1 := by
  have hs : dynStart cfg dynInit initList
      = dynOnList cfg { dynInit with started := true } initList := rfl
  constructor
  · have h0 : (dynStart cfg dynInit initList).torn = none := by
      rw [hs, dynOnList_torn]
      rfl
    have hlog : (dynStart cfg dynInit initList).createLog = expectedLog [initList] := by
      rw [hs, dynOnList_createLog _ _ _ rfl]
      rfl
    rw [dynRun_createLog cfg events _ h0, hlog, ← expectedLog_cons]
  · have hd := dynOnList_defaultMemo cfg { dynInit with started := true } initList
    have hinv : DynInv (dynStart cfg dynInit initList) := by
      rw [hs]
      exact ⟨fun _ => hd.2, by rw [hd.2]; exact Nat.zero_le 1⟩
    exact (dynRun_inv cfg events _ hinv).2

/-- C5: a multi-valued (`cxDynamic` without `create`) entry over constant
assets `a`, `null`, `c` registered in that order resolves to the ordered
sequence `[a, c]`; in general a null constant asset places no evaluator and
the flattened placements preserve the registration order of the rest. -/
theorem cxDynamic_multi_collect {τ : Type} (entry : Nat) (a c : τ)
    (regs : List (Option τ)) :
    (regs.map cxConstAssetPlace).flatten = regs.filterMap id
    ∧ (dynAssign (cxDynamicPlain τ entry) dynInit
        ([some a, none, some c].map cxConstAssetPlace) false).1
      = Except.ok (some ([a, c], some CxMethod.assets)) :=
  ⟨placements_eq_filterMap regs, rfl⟩

/-- C6: requesting a `SingleContextUpKey` value with an explicitly supplied
`null`/`undefined` fallback raises `ContextKeyError` when no source value is
present — even when a default exists — unlike omitting the fallback, which
falls through to the default. -/
theorem singleUp_null_fallback_throws {α : Type} (byDefault : Option α) (d : α) :
    singleUpGrow ([] : List α) true none byDefault = UpResult.keyError
    ∧ singleUpGrow ([] : List α) true none (some d) = UpResult.keyError
    ∧ singleUpGrow ([] : List α) false none (some d) = UpResult.val d :=
  ⟨rfl, rfl, rfl⟩

/-- C7 counterexample: with the same provider reference registered twice,
invoking one registration's removal handle a second time is not a no-op —
it removes the remaining occurrence, so the earlier registration no longer
resolves. -/
theorem seeder_double_revoke_counterexample :
    seederProvide (seederProvide [] 0) 0 = [0, 0]
    ∧ seederRemove [0, 0] 0 = [0]
    ∧ seederRemove (seederRemove [0, 0] 0) 0 = []
    ∧ seederRemove (seederRemove [0, 0] 0) 0 ≠ seederRemove [0, 0] 0 := by
  decide

/-- C7 (amended): the removal handle removes the first occurrence of its
provider; for a provider registered exactly once, termination removes
exactly that registration, leaving the other providers and their order
unchanged, and terminating the same handle again is a no-op — in
particular, after revoking the later of two distinct providers the earlier
one remains, however many times the handle is invoked. -/
theorem seeder_remove_single_registration (xs ys : List Nat) (p q : Nat)
    (h1 : p ∉ xs) (h2 : p ∉ ys) (h3 : p ≠ q) :
    seederRemove (xs ++ p :: ys) p = xs ++ ys
    ∧ seederRemove (seederRemove (xs ++ p :: ys) p) p = xs ++ ys
    ∧ seederRemove (seederProvide [q] p) p = [q]
    ∧ seederRemove (seederRemove (seederProvide [q] p) p) p = [q] := by
  have hmem : p ∉ xs ++ ys := fun hc => (List.mem_append.mp hc).elim h1 h2
  have hq : p ∉ [q] := fun hc => h3 (List.mem_singleton.mp hc)
  have hqe : seederRemove (seederProvide [q] p) p = [q] := by
    have := seederRemove_once [q] [] hq
    simpa [seederProvide] using this
  refine ⟨seederRemove_once xs ys h1, ?_, hqe, ?_⟩
  · rw [seederRemove_once xs ys h1]
    exact seederRemove_not_mem hmem
  · rw [hqe]
    exact seederRemove_not_mem hq

/-- Witness for C7's amended theorem at concrete inputs. -/
theorem seeder_remove_single_registration_witness :
    ((0 : Nat) ∉ [1] ∧ (0 : Nat) ∉ [2] ∧ (0 : Nat) ≠ 1)
    ∧ (seederRemove ([1] ++ 0 :: [2]) 0 = [1] ++ [2]
       ∧ seederRemove (seederRemove ([1] ++ 0 :: [2]) 0) 0 = [1] ++ [2]
       ∧ seederRemove (seederProvide [1] 0) 0 = [1]
       ∧ seederRemove (seederRemove (seederProvide [1] 0) 0) 0 = [1]) :=
  ⟨⟨by decide, by decide, by decide⟩,
    seeder_remove_single_registration [1] [2] 0 1 (by decide) (by decide) (by decide)⟩

/-- C8: evaluation is memoized — a provided asset's evaluator runs exactly
once on first `get()` and never again (the cached result is returned); a
full seed iteration invokes each provider once and a repeated iteration
invokes none, returning the same sources; and the overall `cxSingle` value
is computed at most once per scope, every later `get()` returning the
cached result. -/
theorem memoized_evaluation {σ : Type} (p : Option σ) (provs regs : List (Option σ))
    (n : Nat) :
    memoGet p none = (p, some p, 1)
    ∧ memoGet p (some p) = (p, some p, 0)
    ∧ iterativeSeedRun (provs.map fun q => (q, none))
        = (provs.filterMap id, provs.map fun q => (q, some q), provs.length)
    ∧ iterativeSeedRun (provs.map fun q => (q, some q))
        = (provs.filterMap id, provs.map fun q => (q, some q), 0)
    ∧ (lazyRepeat (cxSingleGet (collectEvaluators regs)) n).2.2 ≤ 1
    ∧ ∀ r ∈ (lazyRepeat (cxSingleGet (collectEvaluators regs)) n).1,
        r = cxSingleGet (collectEvaluators regs) := by
  refine ⟨rfl, rfl, iterativeSeedRun_fresh provs, iterativeSeedRun_cached provs, ?_, ?_⟩
  · rcases lazyRepeat_spec (cxSingleGet (collectEvaluators regs)) n with ⟨-, -, h3⟩
    rw [h3]
    split <;> simp
  · intro r hr
    rcases lazyRepeat_spec (cxSingleGet (collectEvaluators regs)) n with ⟨h1, -, -⟩
    rw [h1] at hr
    exact List.eq_of_mem_replicate hr

/-- C9: a `cxDynamic` entry created without `create` and without `byDefault`
has the empty array as its default state; an empty tracked asset list
switches the entry to that default (`method = Defaults`), and resolution
with zero contributing assets yields `[]` rather than a failure. -/
theorem cxDynamic_empty_default {τ : Type} (entry : Nat) (st : DynState τ (List τ))
    (h1 : st.torn = none) (h2 : st.started = true) :
    (dynOnList (cxDynamicPlain τ entry) st []).method = some CxMethod.defaults
    ∧ (dynGetValue (cxDynamicPlain τ entry) (dynOnList (cxDynamicPlain τ entry) st [])).1
        = Except.ok []
    ∧ (dynAssign (cxDynamicPlain τ entry) (dynOnList (cxDynamicPlain τ entry) st [])
        [] false).1
        = Except.ok (some ([], some CxMethod.defaults))
    ∧ (dynAssign (cxDynamicPlain τ entry) (dynInit (τ := τ)) [] false).1
        = Except.ok (some ([], some CxMethod.defaults)) := by
  have hol : dynOnList (cxDynamicPlain τ entry) st []
      = { st with method := some .defaults, assetsState := none } := by
    simp [dynOnList, h1]
  refine ⟨by rw [hol], ?_, ?_, rfl⟩
  · rw [hol]
    simp [dynGetValue, dynGetState, dynGetDefaultState, h1, h2, cxDynamicPlain]
  · rw [hol]
    simp [dynAssign, dynStart, dynGetValue, dynGetState, dynGetDefaultState,
      cxDynamicPlain, h1, h2]

/-- Witness for C9 at a concrete post-start state. -/
theorem cxDynamic_empty_default_witness :
    ((dynStart (cxDynamicPlain Nat 0) dynInit [[5]]).torn = none
     ∧ (dynStart (cxDynamicPlain Nat 0) dynInit [[5]]).started = true)
    ∧ ((dynOnList (cxDynamicPlain Nat 0) (dynStart (cxDynamicPlain Nat 0) dynInit [[5]])
          []).method = some CxMethod.defaults) :=
  ⟨⟨rfl, rfl⟩,
    (cxDynamic_empty_default 0 (dynStart (cxDynamicPlain Nat 0) dynInit [[5]]) rfl rfl).1⟩

/-- C10: a `cxConstAsset` built from a null/undefined value places nothing
with the collector, so registering it anywhere leaves the collected
evaluators — and hence both single-value and dynamic resolution —
identical to not registering it at all. -/
theorem cxConstAsset_null_inert {τ : Type} (r1 r2 : List (Option τ)) (entry : Nat)
    (isDefault : Bool) :
    cxConstAssetPlace (none : Option τ) = []
    ∧ collectEvaluators (r1 ++ none :: r2) = collectEvaluators (r1 ++ r2)
    ∧ cxSingleResolve (r1 ++ none :: r2) = cxSingleResolve (r1 ++ r2)
    ∧ ((r1 ++ none :: r2).map cxConstAssetPlace).flatten
        = ((r1 ++ r2).map cxConstAssetPlace).flatten
    ∧ dynAssign (cxDynamicPlain τ entry) dynInit
        ((r1 ++ none :: r2).map cxConstAssetPlace) isDefault
      = dynAssign (cxDynamicPlain τ entry) dynInit
        ((r1 ++ r2).map cxConstAssetPlace) isDefault := by
  have hfl : ((r1 ++ none :: r2).map cxConstAssetPlace).flatten
      = ((r1 ++ r2).map cxConstAssetPlace).flatten := by
    rw [placements_eq_filterMap, placements_eq_filterMap]
    simp
  refine ⟨rfl, collectEvaluators_none_skipped r1 r2, ?_, hfl, ?_⟩
  · unfold cxSingleResolve
    rw [collectEvaluators_none_skipped r1 r2]
  · exact dynAssign_flatten_congr _ _ _ _ _ hfl

end ContextValues
